import Mathlib

/-!
Verification of the `llm_jury` escalation middleware.

Shallow embedding of the core data model and operations of the repository
(`packages/python/src/llm_jury`): the escalation gate and orchestrator
(`jury/core.py`), the vote-based judge strategies (`judges/majority_vote.py`,
`judges/weighted_vote.py`, `judges/bayesian.py`), the deliberation-mode debate
loop (`debate/engine.py`), and response parsing (`debate/engine.py`,
`utils.py`).

Python floats are modelled as rationals (`ℚ`), `None`-able values as `Option`,
and code that can raise an uncaught exception as `Option` results (`none` =
raise).  Calls to the external completion service are modelled as oracle
function parameters: the control flow and arithmetic around them is the
repository's own and is embedded faithfully.
-/

namespace LlmJury

/-- `ClassificationResult` from `classifiers/base.py` (the opaque `raw_output`
field is dropped; it never influences control flow or arithmetic). -/
structure ClassificationResult where
  label : String
  confidence : ℚ
  costUsd : Option ℚ := none
deriving Repr, DecidableEq

/-- `PersonaResponse` from `personas/base.py`. -/
structure PersonaResponse where
  personaName : String
  label : String
  confidence : ℚ
  reasoning : String
  keyFactors : List String := []
  dissentNotes : Option String := none
  rawResponse : Option String := none
  tokensUsed : ℕ := 0
  costUsd : Option ℚ := none
deriving Repr, DecidableEq

/-- `Persona` from `personas/base.py`. -/
structure Persona where
  name : String
  role : String
  systemPromptText : String
  modelName : String := "default"
  temperature : ℚ := 3/10
deriving Repr, DecidableEq

/-- `DebateTranscript` from `debate/engine.py`. -/
structure DebateTranscript where
  inputText : String
  primaryResult : ClassificationResult
  rounds : List (List PersonaResponse)
  durationMs : ℤ
  totalTokens : ℕ
  totalCostUsd : Option ℚ
  summary : Option String := none
deriving Repr, DecidableEq

/-- `Verdict` from `judges/base.py`. -/
structure Verdict where
  label : String
  confidence : ℚ
  reasoning : String
  wasEscalated : Bool
  primaryResult : ClassificationResult
  debateTranscript : Option DebateTranscript
  judgeStrategy : String
  totalDurationMs : ℤ
  totalCostUsd : Option ℚ
deriving Repr, DecidableEq

/-- `JuryStats` from `jury/core.py`: the three integer counters. -/
structure JuryStats where
  total : ℕ
  fastPath : ℕ
  escalated : ℕ
deriving Repr, DecidableEq

/-- The configuration of a `Jury` instance (`Jury.__init__` in
`jury/core.py`): the confidence threshold, the optional escalation override
predicate, the persona panel, the classifier's label set, and the optional
debate-cost ceiling. -/
structure JuryConfig where
  threshold : ℚ
  escalationOverride : Option (ClassificationResult → Bool)
  personas : List Persona
  labels : List String
  maxDebateCostUsd : Option ℚ

/-- `Jury._should_escalate` (`jury/core.py` lines 139-142): the override
predicate is authoritative when configured; otherwise escalate exactly when
`confidence < threshold` (strict). -/
def shouldEscalate (cfg : JuryConfig) (result : ClassificationResult) : Bool :=
  match cfg.escalationOverride with
  | some f => f result
  | none => decide (result.confidence < cfg.threshold)

/-- The observable outcome of one `Jury.classify` call: the returned verdict,
the updated statistics counters, and whether the judge strategy was invoked. -/
structure ClassifyOutcome where
  verdict : Verdict
  stats : JuryStats
  judgeInvoked : Bool

/-- `Jury.classify` (`jury/core.py` lines 67-128).  The classifier's answer
`primary`, the debate engine's answer `transcript`, the judge strategy
`judgeFn` and the measured wall-clock duration `dur` are parameters (they are
produced by awaited external calls); everything else mirrors the source:
increment `total`, compute the escalation decision (gate AND non-empty persona
panel), fast-path return, cost guard, judge invocation with orchestrator-owned
field overrides. -/
def classify (cfg : JuryConfig) (judgeFn : DebateTranscript → List String → Verdict)
    (primary : ClassificationResult) (transcript : DebateTranscript) (dur : ℤ)
    (stats : JuryStats) : ClassifyOutcome :=
  let stats1 : JuryStats := { stats with total := stats.total + 1 }
  let esc : Bool := shouldEscalate cfg primary && !cfg.personas.isEmpty
  if esc then
    let stats2 : JuryStats := { stats1 with escalated := stats1.escalated + 1 }
    let guardHit : Bool :=
      match cfg.maxDebateCostUsd, transcript.totalCostUsd with
      | some m, some c => decide (c > m)
      | _, _ => false
    if guardHit then
      { verdict :=
          { label := primary.label
            confidence := primary.confidence
            reasoning := "Debate exceeded max_debate_cost_usd. Returning primary classifier result."
            wasEscalated := true
            primaryResult := primary
            debateTranscript := some transcript
            judgeStrategy := "cost_guard_primary_fallback"
            totalDurationMs := dur
            totalCostUsd := transcript.totalCostUsd }
        stats := stats2
        judgeInvoked := false }
    else
      let v0 := judgeFn transcript cfg.labels
      { verdict :=
          { v0 with
            wasEscalated := true
            primaryResult := primary
            debateTranscript := some transcript
            totalDurationMs := dur
            totalCostUsd :=
              match v0.totalCostUsd with
              | none => transcript.totalCostUsd
              | some c => some c }
        stats := stats2
        judgeInvoked := true }
  else
    { verdict :=
        { label := primary.label
          confidence := primary.confidence
          reasoning := "Classified by primary classifier with sufficient confidence."
          wasEscalated := false
          primaryResult := primary
          debateTranscript := none
          judgeStrategy := "primary_classifier"
          totalDurationMs := dur
          totalCostUsd := some (primary.costUsd.getD 0) }
      stats := { stats1 with fastPath := stats1.fastPath + 1 }
      judgeInvoked := false }

/-- One classification request, as seen by the statistics counters: the
primary result, the transcript the engine would return and the measured
duration for that call. -/
structure ClassifyCall where
  primary : ClassificationResult
  transcript : DebateTranscript
  dur : ℤ

/-- Folding a sequence of `classify` calls over the statistics counters
(`Jury.classify_batch` updates `self._stats` once per completed call). -/
def classifyFold (cfg : JuryConfig) (judgeFn : DebateTranscript → List String → Verdict)
    (calls : List ClassifyCall) (s : JuryStats) : JuryStats :=
  calls.foldl (fun st c => (classify cfg judgeFn c.primary c.transcript c.dur st).stats) s

/-- Accumulated cost of one debate round:
`total_cost += float(response.cost_usd or 0.0)` summed over the round. -/
def roundCost (rs : List PersonaResponse) : ℚ :=
  (rs.map (fun r => r.costUsd.getD 0)).sum

/-- The engine's cost-ceiling test:
`max_cost_usd is not None and total_cost > max_cost_usd`. -/
def costExceeded (maxCost : Option ℚ) (c : ℚ) : Bool :=
  match maxCost with
  | none => false
  | some m => decide (m < c)

/-- `DebateEngine._consensus_reached`: a non-empty round whose labels are all
equal (`bool(labels) and len(set(labels)) == 1`). -/
def consensusReached (rs : List PersonaResponse) : Bool :=
  match rs.map PersonaResponse.label with
  | [] => false
  | l :: ls => ls.all (fun x => x = l)

/-- The stage-2 loop of deliberation-mode `DebateEngine.debate`
(`for _ in range(1, max(1, self.config.max_rounds))`): each iteration asks
the panel for one more round (the `oracle` parameter models the awaited
`_run_deliberation_round` call as a function of the prior rounds), appends
it, accumulates its cost, and stops after the round when the cost ceiling is
exceeded or the round is unanimous.  `fuel` is the remaining iteration
count. -/
def delibLoop (oracle : List (List PersonaResponse) → List PersonaResponse)
    (maxCost : Option ℚ) :
    ℕ → List (List PersonaResponse) → ℚ → List (List PersonaResponse) × ℚ
  | 0, rounds, cost => (rounds, cost)
  | fuel + 1, rounds, cost =>
      let current := oracle rounds
      let rounds2 := rounds ++ [current]
      let cost2 := cost + roundCost current
      if costExceeded maxCost cost2 then (rounds2, cost2)
      else if consensusReached current then (rounds2, cost2)
      else delibLoop oracle maxCost fuel rounds2 cost2

/-- Deliberation-mode `DebateEngine.debate` (`debate/engine.py` lines
91-163, deliberation branch): empty panel returns an empty transcript;
stage 1 runs one parallel round (again via `oracle`) and returns at once if
the ceiling is already exceeded; stage 2 runs the loop above with
`max(1, max_rounds) - 1` iterations; stage 3 adds the summarisation call's
cost (`summaryCost`, an external completion) unless the ceiling was
exceeded.  Returns the transcript's rounds and accumulated cost. -/
def debateDeliberation (personas : List Persona)
    (oracle : List (List PersonaResponse) → List PersonaResponse)
    (maxRounds : ℤ) (maxCost : Option ℚ) (summaryCost : ℚ) :
    List (List PersonaResponse) × ℚ :=
  if personas.isEmpty then ([], 0)
  else
    let r0 := oracle []
    let c0 := roundCost r0
    if costExceeded maxCost c0 then ([r0], c0)
    else
      let res := delibLoop oracle maxCost (max 1 maxRounds - 1).toNat [r0] c0
      if costExceeded maxCost res.2 then res else (res.1, res.2 + summaryCost)

/-- Python-side JSON values as produced by `json.loads`. -/
inductive PyJson where
  | null : PyJson
  | bool (b : Bool) : PyJson
  | num (q : ℚ) : PyJson
  | str (s : String) : PyJson
  | arr (items : List PyJson) : PyJson
  | obj (fields : List (String × PyJson)) : PyJson

/-- `isinstance(data, dict)` projection. -/
def objFields : PyJson → Option (List (String × PyJson))
  | .obj fs => some fs
  | _ => none

/-- Python `str.strip()`: drop leading and trailing whitespace (modelled on
code points with `Char.isWhitespace`). -/
def pyStrip (s : String) : String :=
  String.mk (((s.toList.dropWhile Char.isWhitespace).reverse.dropWhile
    Char.isWhitespace).reverse)

/-- Python `str.startswith(pat)` on code points. -/
def strStarts (s pat : String) : Bool := pat.toList.isPrefixOf s.toList

/-- Splitting a string at newline characters (Python `str.splitlines` for
`\n`-separated text; `\r` and unicode line separators are not modelled). -/
def splitOnNewline (s : String) : List String :=
  (s.toList.foldr
    (fun ch acc =>
      match acc with
      | [] => if ch = '\n' then [[], []] else [[ch]]
      | g :: gs => if ch = '\n' then [] :: (g :: gs) else (ch :: g) :: gs)
    [[]]).map (fun l => String.mk l)

/-- Python slice `s[:n]` on code points. -/
def pyTruncate (s : String) (n : ℕ) : String := String.mk (s.toList.take n)

/-- `strip_markdown_fences` from `utils.py`: strip the text, and if it
starts with a code fence, drop every line that (stripped) starts with a
fence and re-join with newlines, stripping again. -/
def stripMarkdownFences (content : String) : String :=
  let text := pyStrip content
  if strStarts text "```" then
    let lines := (splitOnNewline text).filter (fun line => !(strStarts (pyStrip line) "```"))
    pyStrip (String.intercalate "\n" lines)
  else text

/-- `safe_json_parse` from `utils.py`, parameterized by the external
`json.loads` (`loads s = none` models a parse exception): returns the dict,
or `none` on failure or a non-dict result. -/
def safeJsonParse (loads : String → Option PyJson) (content : String) :
    Option (List (String × PyJson)) :=
  match loads content with
  | none => none
  | some v => objFields v

/-- `dict.get(key, default)` on a parsed JSON object. -/
def dGet (fields : List (String × PyJson)) (key : String) (default : PyJson) : PyJson :=
  match fields.find? (fun kv => kv.1 = key) with
  | some kv => kv.2
  | none => default

/-- `key in dict` on a parsed JSON object. -/
def dHas (fields : List (String × PyJson)) (key : String) : Bool :=
  fields.any (fun kv => kv.1 = key)

/-- Python `str()` of a parsed JSON value.  The exact rendering of floats
and nested containers is not modelled (no theorem depends on it); strings,
booleans and `None` are. -/
def pyStr : PyJson → String
  | .null => "None"
  | .bool b => if b then "True" else "False"
  | .num q => toString q
  | .str s => s
  | .arr _ => "<list>"
  | .obj _ => "<dict>"

/-- Digits of a string as a natural number, `none` if any character is not
a digit. -/
def digitsToNat (s : String) : Option ℕ :=
  s.toList.foldl
    (fun acc c =>
      match acc with
      | none => none
      | some n => if c.isDigit then some (n * 10 + (c.toNat - 48)) else none)
    (some 0)

/-- Python `float(s)` on a string, restricted to plain decimal literals with
an optional sign and fraction (exponents, `inf`/`nan` and underscores are
not modelled; no theorem depends on the string case). -/
def pyFloatOfString (s : String) : Option ℚ :=
  let t := s.trim
  let core := if t.startsWith "-" ∨ t.startsWith "+" then t.drop 1 else t
  let sign : ℚ := if t.startsWith "-" then -1 else 1
  match core.splitOn "." with
  | [ip] =>
      if ip.isEmpty then none
      else (digitsToNat ip).map (fun n => sign * n)
  | [ip, fp] =>
      if ip.isEmpty ∧ fp.isEmpty then none
      else
        match digitsToNat ip, digitsToNat fp with
        | some n, some f => some (sign * (n + (f : ℚ) / 10 ^ fp.length))
        | _, _ => none
  | _ => none

/-- Python `float(value)` on a parsed JSON value: numbers and booleans
convert, numeric strings parse, everything else (`None`, lists, dicts)
raises a `TypeError`/`ValueError` (modelled as `none`). -/
def pyFloat : PyJson → Option ℚ
  | .num q => some q
  | .bool b => some (if b then 1 else 0)
  | .str s => pyFloatOfString s
  | _ => none

/-- Python iteration over a parsed JSON value (`[... for item in value]`):
lists yield their items, strings their characters, dicts their keys;
numbers, booleans and `None` raise a `TypeError` (modelled as `none`). -/
def pyIter : PyJson → Option (List PyJson)
  | .arr items => some items
  | .str s => some (s.toList.map (fun c => PyJson.str (String.singleton c)))
  | .obj fs => some (fs.map (fun kv => PyJson.str kv.1))
  | _ => none

/-- `clamp_confidence` from `utils.py`: clamp into [0, 1]. -/
def clampConfidence (q : ℚ) : ℚ := max 0 (min 1 q)

/-- `DebateEngine._parse_persona_response` (`debate/engine.py` lines
403-431), parameterized by the external `json.loads`.  `none` models an
uncaught exception (Python's `float()` or iteration raising on a malformed
field of a successfully parsed object).  The Python `labels` parameter is
`list[str] | None`; both `None` and `[]` are falsy and give the "unknown"
fallback label, so it is modelled as a list with `headD`. -/
def parsePersonaResponse (loads : String → Option PyJson) (raw personaName : String)
    (labels : List String) : Option PersonaResponse :=
  match safeJsonParse loads (stripMarkdownFences raw) with
  | none =>
      some
        { personaName := personaName
          label := labels.headD "unknown"
          confidence := 0
          reasoning := "Failed to parse persona response as JSON: " ++ pyTruncate raw 200
          keyFactors := [] }
  | some payload =>
      match pyFloat (dGet payload "confidence" (.num 0)),
            pyIter (dGet payload "key_factors" (.arr [])) with
      | some conf, some kf =>
          some
            { personaName := personaName
              label := pyStr (dGet payload "label" (.str "unknown"))
              confidence := clampConfidence conf
              reasoning := pyStr (dGet payload "reasoning" (.str ""))
              keyFactors := kf.map pyStr
              dissentNotes :=
                if dHas payload "dissent_notes" then
                  some (pyStr (dGet payload "dissent_notes" .null))
                else none
              rawResponse := none
              tokensUsed := 0
              costUsd := some 0 }
      | _, _ => none

/-- The keys of a Python dict/Counter built by inserting the elements of `l`
left to right: each distinct element once, in first-encounter order. -/
def firstOccur {α : Type} [DecidableEq α] (l : List α) : List α :=
  l.foldl (fun acc x => if x ∈ acc then acc else acc ++ [x]) []

/-- Python's first-wins maximum selection (`max(..., key=f)`,
`Counter.most_common(1)` via stable `heapq.nlargest`): fold that replaces the
current best only on a strictly larger key. -/
def firstMax {α β : Type} [LinearOrder β] (f : α → β) (x : α) (xs : List α) : α :=
  xs.foldl (fun b y => if f b < f y then y else b) x

/-- `_fallback_verdict` from `judges/base.py`: the deterministic verdict built
from the primary result when the final round has no responses. -/
def fallbackVerdict (t : DebateTranscript) (strategyName : String) : Verdict :=
  { label := t.primaryResult.label
    confidence := t.primaryResult.confidence
    reasoning := "No persona responses; returning primary classifier result."
    wasEscalated := true
    primaryResult := t.primaryResult
    debateTranscript := some t
    judgeStrategy := strategyName
    totalDurationMs := t.durationMs
    totalCostUsd := t.totalCostUsd }

/-- Number of final-round responses voting for label `lab`
(`Counter(response.label for response in final_round)[lab]`). -/
def countLabel (fr : List PersonaResponse) (lab : String) : ℕ :=
  (fr.map PersonaResponse.label).count lab

/-- `MajorityVoteJudge.judge` from `judges/majority_vote.py`.  The guard
`not transcript.rounds or not transcript.rounds[-1]` is the `getLast?` match
plus the `isEmpty` test; `Counter.most_common(1)[0]` is the first-wins
maximum over the distinct labels in first-encounter order (the inner `[]`
branch is unreachable for a non-empty final round).  The `labels` argument is
accepted but never read, as in the source. -/
def majorityVoteJudge (t : DebateTranscript) (labels : List String) : Verdict :=
  match t.rounds.getLast? with
  | none => fallbackVerdict t "majority_vote"
  | some fr =>
    if fr.isEmpty then fallbackVerdict t "majority_vote"
    else
      match firstOccur (fr.map PersonaResponse.label) with
      | [] => fallbackVerdict t "majority_vote"
      | l :: ls =>
        let winner := firstMax (countLabel fr) l ls
        let reasons := (fr.filter (fun r => r.label = winner)).map PersonaResponse.reasoning
        { label := winner
          confidence := (countLabel fr winner : ℚ) / (fr.length : ℚ)
          reasoning :=
            if reasons.isEmpty then "Majority vote selected the winner."
            else String.intercalate " " reasons
          wasEscalated := true
          primaryResult := t.primaryResult
          debateTranscript := some t
          judgeStrategy := "majority_vote"
          totalDurationMs := t.durationMs
          totalCostUsd := t.totalCostUsd }

/-- Accumulated confidence per label
(`scores[response.label] += float(response.confidence)` in
`judges/weighted_vote.py`): final value of `scores[lab]`. -/
def scoreSum (fr : List PersonaResponse) (lab : String) : ℚ :=
  ((fr.filter (fun r => r.label = lab)).map PersonaResponse.confidence).sum

/-- `WeightedVoteJudge.judge` from `judges/weighted_vote.py`.  The `scores`
dict holds the per-label confidence sums with keys in first-encounter order;
`max(scores, key=...)` is the first-wins maximum; `sum(scores.values()) or
1.0` is the `if ... = 0 then 1` adjustment.  The `labels` argument is
accepted but never read, as in the source. -/
def weightedVoteJudge (t : DebateTranscript) (labels : List String) : Verdict :=
  match t.rounds.getLast? with
  | none => fallbackVerdict t "weighted_vote"
  | some fr =>
    if fr.isEmpty then fallbackVerdict t "weighted_vote"
    else
      match firstOccur (fr.map PersonaResponse.label) with
      | [] => fallbackVerdict t "weighted_vote"
      | l :: ls =>
        let winner := firstMax (scoreSum fr) l ls
        let total0 := ((firstOccur (fr.map PersonaResponse.label)).map (scoreSum fr)).sum
        let total := if total0 = 0 then 1 else total0
        { label := winner
          confidence := scoreSum fr winner / total
          reasoning := "Weighted vote based on persona confidence scores."
          wasEscalated := true
          primaryResult := t.primaryResult
          debateTranscript := some t
          judgeStrategy := "weighted_vote"
          totalDurationMs := t.durationMs
          totalCostUsd := t.totalCostUsd }

/-- The prior looked up in `judges/bayesian.py`:
`self.persona_priors.get(response.persona_name, {}).get(label, 1.0 / max(1, len(labels)))`. -/
def priorFor (priors : String → String → Option ℚ) (nLabels : ℕ)
    (personaName lab : String) : ℚ :=
  (priors personaName lab).getD (1 / (max 1 nLabels : ℚ))

/-- `response.confidence if response.label == label else (1.0 - response.confidence)`. -/
def likelihoodFor (r : PersonaResponse) (lab : String) : ℚ :=
  if r.label = lab then r.confidence else 1 - r.confidence

/-- One multiplicative factor of the Bayesian loop:
`max(1e-6, prior * likelihood)`. -/
def bayesFactor (priors : String → String → Option ℚ) (nLabels : ℕ)
    (r : PersonaResponse) (lab : String) : ℚ :=
  max (1/1000000) (priorFor priors nLabels r.personaName lab * likelihoodFor r lab)

/-- The inner `for label in labels` loop of `BayesianJudge.judge` for one
response: `posterior[label] *= max(1e-6, prior * likelihood)`, once per
occurrence of the label in the `labels` list. -/
def bayesStep (priors : String → String → Option ℚ) (nLabels : ℕ) (labels : List String)
    (r : PersonaResponse) (post : String → ℚ) : String → ℚ :=
  labels.foldl
    (fun p lab => Function.update p lab (p lab * bayesFactor priors nLabels r lab)) post

/-- The full double loop of `BayesianJudge.judge` over the final round,
starting from the `defaultdict(lambda: 1.0)` posterior. -/
def bayesPost (priors : String → String → Option ℚ) (nLabels : ℕ) (labels : List String)
    (fr : List PersonaResponse) : String → ℚ :=
  fr.foldl (fun post r => bayesStep priors nLabels labels r post) (fun _ => 1)

/-- `BayesianJudge.judge` from `judges/bayesian.py`.  The posterior dict's
keys are the labels in first-encounter order (inserted by the first inner
loop pass); normalization divides by `sum(posterior.values()) or 1.0`;
`max(posterior, key=...)` is the first-wins maximum over those keys.  With an
empty `labels` list the dict stays empty and Python's `max()` raises
`ValueError`: that branch is modelled as `none`. -/
def bayesianJudge (priors : String → String → Option ℚ) (t : DebateTranscript)
    (labels : List String) : Option Verdict :=
  match t.rounds.getLast? with
  | none => some (fallbackVerdict t "bayesian")
  | some fr =>
    if fr.isEmpty then some (fallbackVerdict t "bayesian")
    else
      let post := bayesPost priors labels.length labels fr
      let keys := firstOccur labels
      let total0 := (keys.map post).sum
      let total := if total0 = 0 then 1 else total0
      let postN : String → ℚ := fun lab => post lab / total
      match keys with
      | [] => none
      | k :: ks =>
        let winner := firstMax postN k ks
        some
          { label := winner
            confidence := postN winner
            reasoning := "Bayesian aggregation across persona responses."
            wasEscalated := true
            primaryResult := t.primaryResult
            debateTranscript := some t
            judgeStrategy := "bayesian"
            totalDurationMs := t.durationMs
            totalCostUsd := t.totalCostUsd }

/-- Closed form of the Bayesian posterior: for each label, the product over
final-round responses of `max(1e-6, prior * likelihood)`, one factor per
occurrence of the label in the `labels` list. -/
def bayesClosedPost (priors : String → String → Option ℚ) (labels : List String)
    (fr : List PersonaResponse) (lab : String) : ℚ :=
  (fr.map (fun r => bayesFactor priors labels.length r lab ^ labels.count lab)).prod

/-- Closed form of the normalized Bayesian posterior. -/
def bayesNormPost (priors : String → String → Option ℚ) (labels : List String)
    (fr : List PersonaResponse) (lab : String) : ℚ :=
  bayesClosedPost priors labels fr lab
    / ((firstOccur labels).map (bayesClosedPost priors labels fr)).sum

/-- Modelled from the claim's wording (C6), for comparison against the code:
for each label the posterior starts from the uniform prior `1/|labels|` (the
prior table is empty here) and the *running posterior* is multiplied by the
likelihood and clamped to a minimum of `1e-6` at each response. -/
def bayesianClaimPost (labels : List String) (fr : List PersonaResponse) (lab : String) : ℚ :=
  fr.foldl (fun p r => max (1/1000000) (p * likelihoodFor r lab)) (1 / (labels.length : ℚ))

/-- Modelled from the claim's wording (C6): normalize the claim-version
posteriors over the label set, take the argmax, return its normalized
posterior. -/
def bayesianClaimConfidence (labels : List String) (fr : List PersonaResponse) : ℚ :=
  let keys := firstOccur labels
  let total := (keys.map (bayesianClaimPost labels fr)).sum
  match keys with
  | [] => 0
  | k :: ks =>
    let postN : String → ℚ := fun lab => bayesianClaimPost labels fr lab / total
    postN (firstMax postN k ks)

/-- A one-element persona panel for concrete runs. -/
def onePersona : List Persona := [{ name := "A", role := "r", systemPromptText := "s" }]

/-- An oracle answering every round with one fixed response. -/
def constOracle : List (List PersonaResponse) → List PersonaResponse := fun _ =>
  [{ personaName := "A", label := "x", confidence := 1/2, reasoning := "r",
     costUsd := some (1/100) }]

/-- An oracle answering every round with two responses carrying different
labels (so no round is ever unanimous). -/
def splitOracle : List (List PersonaResponse) → List PersonaResponse := fun _ =>
  [{ personaName := "A", label := "x", confidence := 1/2, reasoning := "r" },
   { personaName := "B", label := "y", confidence := 1/2, reasoning := "r" }]

/-- A constant judge strategy used to instantiate `classify` at concrete
inputs (any function of the right type works; `classify` treats it as the
awaited judge call). -/
def constJudge : DebateTranscript → List String → Verdict := fun t _ =>
  { label := "x"
    confidence := 0
    reasoning := ""
    wasEscalated := true
    primaryResult := t.primaryResult
    debateTranscript := some t
    judgeStrategy := "majority_vote"
    totalDurationMs := 0
    totalCostUsd := none }

/-- Concrete configuration: threshold 0.7, no override, no personas. -/
def cfgNoPersonas : JuryConfig :=
  { threshold := 7/10
    escalationOverride := none
    personas := []
    labels := ["safe", "unsafe"]
    maxDebateCostUsd := none }

/-- Concrete configuration: threshold 0.9, one persona, max debate cost 0.01. -/
def cfgGuard : JuryConfig :=
  { threshold := 9/10
    escalationOverride := none
    personas := [{ name := "A", role := "r", systemPromptText := "s" }]
    labels := ["safe", "unsafe"]
    maxDebateCostUsd := some (1/100) }

/-- Concrete primary result ("safe", 0.95). -/
def primarySafe : ClassificationResult := { label := "safe", confidence := 95/100 }

/-- Concrete primary result ("safe", 0.4). -/
def primaryLow : ClassificationResult := { label := "safe", confidence := 4/10 }

/-- Concrete empty transcript with cost 0. -/
def transcriptEmpty : DebateTranscript :=
  { inputText := "text"
    primaryResult := primarySafe
    rounds := []
    durationMs := 0
    totalTokens := 0
    totalCostUsd := some 0 }

/-- Concrete empty transcript with cost 0.05 (over the 0.01 ceiling). -/
def transcriptCostly : DebateTranscript :=
  { inputText := "text"
    primaryResult := primaryLow
    rounds := []
    durationMs := 0
    totalTokens := 0
    totalCostUsd := some (5/100) }

/-- Zeroed statistics counters. -/
def statsZero : JuryStats := { total := 0, fastPath := 0, escalated := 0 }

/-- Concrete final round with a 2-1 split (the repository's
`test_majority_vote.py::test_split` input). -/
def mvRound : List PersonaResponse :=
  [{ personaName := "A", label := "unsafe", confidence := 9/10, reasoning := "r1" },
   { personaName := "B", label := "safe", confidence := 8/10, reasoning := "r2" },
   { personaName := "C", label := "unsafe", confidence := 7/10, reasoning := "r3" }]

/-- Transcript holding `mvRound` as its only round. -/
def mvTranscript : DebateTranscript :=
  { inputText := "text"
    primaryResult := { label := "unknown", confidence := 4/10 }
    rounds := [mvRound]
    durationMs := 10
    totalTokens := 20
    totalCostUsd := some (1/1000) }

/-- Concrete final round for the weighted-vote scenario:
`[("safe",0.99),("unsafe",0.6),("unsafe",0.2)]`. -/
def wvRound : List PersonaResponse :=
  [{ personaName := "A", label := "safe", confidence := 99/100, reasoning := "a" },
   { personaName := "B", label := "unsafe", confidence := 6/10, reasoning := "b" },
   { personaName := "C", label := "unsafe", confidence := 2/10, reasoning := "c" }]

/-- Transcript holding `wvRound` as its only round. -/
def wvTranscript : DebateTranscript :=
  { inputText := "text"
    primaryResult := { label := "unknown", confidence := 4/10 }
    rounds := [wvRound]
    durationMs := 10
    totalTokens := 20
    totalCostUsd := some 0 }

/-- Concrete final round for the Bayesian comparison: two responses with
label "a" and confidence 1. -/
def bcRound : List PersonaResponse :=
  [{ personaName := "p1", label := "a", confidence := 1, reasoning := "r1" },
   { personaName := "p2", label := "a", confidence := 1, reasoning := "r2" }]

/-- Transcript holding `bcRound` as its only round. -/
def bcTranscript : DebateTranscript :=
  { inputText := "t"
    primaryResult := { label := "a", confidence := 1/2 }
    rounds := [bcRound]
    durationMs := 0
    totalTokens := 0
    totalCostUsd := some 0 }

/-- A final round whose single response carries a label ("zzz") outside any
configured label set. -/
def strayRound : List PersonaResponse :=
  [{ personaName := "A", label := "zzz", confidence := 1/2, reasoning := "r" }]

/-- Transcript holding `strayRound` as its only round. -/
def strayTranscript : DebateTranscript :=
  { inputText := "t"
    primaryResult := { label := "safe", confidence := 1/2 }
    rounds := [strayRound]
    durationMs := 0
    totalTokens := 0
    totalCostUsd := some 0 }

/-- Helper: `firstMax f x xs` is an element of `x :: xs` maximizing `f`, and
it is the *first* such element: everything before it in the list has a
strictly smaller key. -/
theorem firstMax_spec {α β : Type} [LinearOrder β] (f : α → β) :
    ∀ (xs : List α) (x : α),
      (∀ a ∈ x :: xs, f a ≤ f (firstMax f x xs)) ∧
      ∃ pre post, x :: xs = pre ++ firstMax f x xs :: post ∧
        ∀ a ∈ pre, f a < f (firstMax f x xs) := by
  intro xs
  induction xs with
  | nil =>
      intro x
      refine ⟨?_, [], [], rfl, by simp⟩
      intro a ha
      simp only [List.mem_singleton] at ha
      subst ha
      exact le_refl _
  | cons y ys ih =>
      intro x
      have hfx : firstMax f x (y :: ys) = firstMax f (if f x < f y then y else x) ys := by
        simp [firstMax]
      by_cases hxy : f x < f y
      · rw [hfx, if_pos hxy]
        obtain ⟨hmax, pre', post', heq, hlt⟩ := ih y
        have hyle : f y ≤ f (firstMax f y ys) := hmax y (List.mem_cons_self _ _)
        refine ⟨?_, x :: pre', post', ?_, ?_⟩
        · intro a ha
          rcases List.mem_cons.mp ha with h | h
          · subst h; exact le_of_lt (lt_of_lt_of_le hxy hyle)
          · exact hmax a h
        · rw [List.cons_append, ← heq]
        · intro a ha
          rcases List.mem_cons.mp ha with h | h
          · subst h; exact lt_of_lt_of_le hxy hyle
          · exact hlt a h
      · rw [hfx, if_neg hxy]
        obtain ⟨hmax, pre', post', heq, hlt⟩ := ih x
        have hyx : f y ≤ f x := not_lt.mp hxy
        have hxle : f x ≤ f (firstMax f x ys) := hmax x (List.mem_cons_self _ _)
        refine ⟨?_, ?_⟩
        · intro a ha
          rcases List.mem_cons.mp ha with h | h
          · subst h; exact hxle
          rcases List.mem_cons.mp h with h | h
          · subst h; exact le_trans hyx hxle
          · exact hmax a (List.mem_cons_of_mem _ h)
        · cases pre' with
          | nil =>
              simp only [List.nil_append] at heq
              have hx : firstMax f x ys = x := ((List.cons.injEq _ _ _ _).mp heq).1.symm
              exact ⟨[], y :: ys, by rw [List.nil_append, hx], by simp⟩
          | cons p ps =>
              have hxp : x = p := ((List.cons.injEq _ _ _ _).mp heq).1
              subst hxp
              have hys : ys = ps ++ firstMax f x ys :: post' :=
                ((List.cons.injEq _ _ _ _).mp heq).2
              have hpx : f x < f (firstMax f x ys) := hlt x (List.mem_cons_self _ _)
              refine ⟨x :: y :: ps, post', ?_, ?_⟩
              · rw [List.cons_append, List.cons_append, ← hys]
              · intro a ha
                rcases List.mem_cons.mp ha with h | h
                · subst h; exact hpx
                rcases List.mem_cons.mp h with h | h
                · subst h; exact lt_of_le_of_lt hyx hpx
                · exact hlt a (List.mem_cons_of_mem _ h)

/-- Helper: membership in the foldl underlying `firstOccur`. -/
theorem firstOccur_go_mem {α : Type} [DecidableEq α] :
    ∀ (l acc : List α) (a : α),
      (a ∈ l.foldl (fun acc x => if x ∈ acc then acc else acc ++ [x]) acc) ↔
        a ∈ acc ∨ a ∈ l := by
  intro l
  induction l with
  | nil => intro acc a; simp
  | cons x xs ih =>
      intro acc a
      simp only [List.foldl_cons]
      by_cases hx : x ∈ acc
      · rw [if_pos hx, ih]
        constructor
        · rintro (h | h)
          · exact Or.inl h
          · exact Or.inr (List.mem_cons_of_mem _ h)
        · rintro (h | h)
          · exact Or.inl h
          · rcases List.mem_cons.mp h with h | h
            · subst h; exact Or.inl hx
            · exact Or.inr h
      · rw [if_neg hx, ih]
        simp only [List.mem_append, List.mem_singleton, List.mem_cons]
        tauto

/-- Helper: membership in `firstOccur` agrees with membership in the list. -/
theorem mem_firstOccur {α : Type} [DecidableEq α] (l : List α) (a : α) :
    a ∈ firstOccur l ↔ a ∈ l := by
  rw [firstOccur, firstOccur_go_mem]
  simp

/-- Helper: the foldl underlying `firstOccur` preserves `Nodup`. -/
theorem firstOccur_go_nodup {α : Type} [DecidableEq α] :
    ∀ (l acc : List α), acc.Nodup →
      (l.foldl (fun acc x => if x ∈ acc then acc else acc ++ [x]) acc).Nodup := by
  intro l
  induction l with
  | nil => intro acc h; simpa
  | cons x xs ih =>
      intro acc h
      simp only [List.foldl_cons]
      by_cases hx : x ∈ acc
      · rw [if_pos hx]; exact ih acc h
      · rw [if_neg hx]
        exact ih _ ((List.nodup_append.mpr ⟨h, List.nodup_singleton x, by simpa using hx⟩))

/-- Helper: `firstOccur` has no duplicates. -/
theorem nodup_firstOccur {α : Type} [DecidableEq α] (l : List α) : (firstOccur l).Nodup :=
  firstOccur_go_nodup l [] List.nodup_nil

/-- Helper: `firstOccur` of a non-empty list is non-empty. -/
theorem firstOccur_ne_nil {α : Type} [DecidableEq α] (l : List α) (h : l ≠ []) :
    firstOccur l ≠ [] := by
  cases l with
  | nil => exact absurd rfl h
  | cons x xs =>
      intro hcon
      have := (mem_firstOccur (x :: xs) x).mpr (List.mem_cons_self _ _)
      rw [hcon] at this
      exact absurd this (List.not_mem_nil x)

/-- Helper: each completed `classify` call increments `total` by one and the
`fastPath`/`escalated` pair by exactly one in total. -/
theorem classify_stats_step (cfg : JuryConfig) (j : DebateTranscript → List String → Verdict)
    (p : ClassificationResult) (t : DebateTranscript) (d : ℤ) (st : JuryStats) :
    (classify cfg j p t d st).stats.total = st.total + 1 ∧
    (classify cfg j p t d st).stats.fastPath + (classify cfg j p t d st).stats.escalated
      = st.fastPath + st.escalated + 1 := by
  unfold classify
  dsimp only
  split
  · split <;> simp <;> omega
  · simp
    omega

/-- Helper: the counter invariant is preserved by any sequence of
`classify` calls. -/
theorem classifyFold_inv (cfg : JuryConfig) (j : DebateTranscript → List String → Verdict) :
    ∀ (calls : List ClassifyCall) (s : JuryStats),
      s.fastPath + s.escalated = s.total →
      (classifyFold cfg j calls s).fastPath + (classifyFold cfg j calls s).escalated
        = (classifyFold cfg j calls s).total := by
  intro calls
  induction calls with
  | nil => intro s h; simpa [classifyFold] using h
  | cons c rest ih =>
      intro s h
      have hstep := classify_stats_step cfg j c.primary c.transcript c.dur s
      have : (classify cfg j c.primary c.transcript c.dur s).stats.fastPath
          + (classify cfg j c.primary c.transcript c.dur s).stats.escalated
          = (classify cfg j c.primary c.transcript c.dur s).stats.total := by omega
      simpa [classifyFold] using ih _ this

/-- Helper: unfolding `majorityVoteJudge` on a non-empty final round. -/
theorem majorityVoteJudge_eq (t : DebateTranscript) (labels : List String)
    (fr : List PersonaResponse) (l : String) (ls : List String)
    (hfr : t.rounds.getLast? = some fr) (hne : fr.isEmpty = false)
    (hocc : firstOccur (fr.map PersonaResponse.label) = l :: ls) :
    majorityVoteJudge t labels =
      { label := firstMax (countLabel fr) l ls
        confidence := (countLabel fr (firstMax (countLabel fr) l ls) : ℚ) / (fr.length : ℚ)
        reasoning :=
          if ((fr.filter (fun r => r.label = firstMax (countLabel fr) l ls)).map
              PersonaResponse.reasoning).isEmpty
          then "Majority vote selected the winner."
          else String.intercalate " "
            ((fr.filter (fun r => r.label = firstMax (countLabel fr) l ls)).map
              PersonaResponse.reasoning)
        wasEscalated := true
        primaryResult := t.primaryResult
        debateTranscript := some t
        judgeStrategy := "majority_vote"
        totalDurationMs := t.durationMs
        totalCostUsd := t.totalCostUsd } := by
  unfold majorityVoteJudge
  rw [hfr]
  dsimp only
  rw [hne, hocc]
  dsimp only
  simp only [Bool.false_eq_true, if_false]

/-- Helper: the winning label of a first-wins maximum over `firstOccur`
occurs in the underlying list. -/
theorem firstMax_firstOccur_mem {α β : Type} [DecidableEq α] [LinearOrder β]
    (f : α → β) (src : List α) (l : α) (ls : List α)
    (hocc : firstOccur src = l :: ls) : firstMax f l ls ∈ src := by
  obtain ⟨_, pre, post, hdec, _⟩ := firstMax_spec f ls l
  have hmem : firstMax f l ls ∈ l :: ls := by
    rw [hdec]
    exact List.mem_append_right _ (List.mem_cons_self _ _)
  rw [← hocc] at hmem
  exact (mem_firstOccur src _).mp hmem

/-- C4: for a non-empty final round, `MajorityVoteJudge.judge` returns a
label with maximal vote count, breaking count ties in favour of the label
first encountered in final-round order (the decomposition of `firstOccur`,
which lists distinct labels in first-encounter order); its confidence is
`winner_count / round_size` with `1 ≤ winner_count ≤ round_size`; its
reasoning is the space-joined reasonings of the winning voters, that set
being non-empty. -/
theorem majority_vote_spec (t : DebateTranscript) (labels : List String)
    (fr : List PersonaResponse)
    (hfr : t.rounds.getLast? = some fr) (hne : fr ≠ []) :
    (∀ lab : String, countLabel fr lab ≤ countLabel fr (majorityVoteJudge t labels).label) ∧
    (∃ pre post, firstOccur (fr.map PersonaResponse.label)
        = pre ++ (majorityVoteJudge t labels).label :: post ∧
      ∀ lab ∈ pre, countLabel fr lab < countLabel fr (majorityVoteJudge t labels).label) ∧
    (majorityVoteJudge t labels).confidence
      = (countLabel fr (majorityVoteJudge t labels).label : ℚ) / (fr.length : ℚ) ∧
    1 ≤ countLabel fr (majorityVoteJudge t labels).label ∧
    countLabel fr (majorityVoteJudge t labels).label ≤ fr.length ∧
    (fr.filter (fun r => r.label = (majorityVoteJudge t labels).label)) ≠ [] ∧
    (majorityVoteJudge t labels).reasoning
      = String.intercalate " "
          ((fr.filter (fun r => r.label = (majorityVoteJudge t labels).label)).map
            PersonaResponse.reasoning) := by
  have hmapne : fr.map PersonaResponse.label ≠ [] := by
    simpa using hne
  cases hocc : firstOccur (fr.map PersonaResponse.label) with
  | nil => exact absurd hocc (firstOccur_ne_nil _ hmapne)
  | cons l ls =>
    have hje := majorityVoteJudge_eq t labels fr l ls hfr (by simpa using hne) hocc
    obtain ⟨hmax, pre, post, hdec, hlt⟩ := firstMax_spec (countLabel fr) ls l
    have hwmem : firstMax (countLabel fr) l ls ∈ fr.map PersonaResponse.label :=
      firstMax_firstOccur_mem _ _ _ _ hocc
    obtain ⟨r, hr, hrl⟩ := List.mem_map.mp hwmem
    have hfil : r ∈ fr.filter (fun x => x.label = firstMax (countLabel fr) l ls) :=
      List.mem_filter.mpr ⟨hr, by simp [hrl]⟩
    have hfilne : fr.filter (fun x => x.label = firstMax (countLabel fr) l ls) ≠ [] :=
      List.ne_nil_of_mem hfil
    rw [hje]
    dsimp only
    refine ⟨?_, ?_, rfl, ?_, ?_, hfilne, ?_⟩
    · intro lab
      by_cases hmem : lab ∈ fr.map PersonaResponse.label
      · exact hmax lab (hocc ▸ (mem_firstOccur _ _).mpr hmem)
      · have : countLabel fr lab = 0 := by
          simpa [countLabel] using List.count_eq_zero.mpr hmem
        omega
    · exact ⟨pre, post, hdec, hlt⟩
    · have : 0 < countLabel fr (firstMax (countLabel fr) l ls) := by
        simpa [countLabel] using List.count_pos_iff.mpr hwmem
      omega
    · simpa [countLabel] using
        (List.count_le_length (firstMax (countLabel fr) l ls) (fr.map PersonaResponse.label))
    · rw [if_neg (by simpa using hfilne)]

/-- Helper: summing an indicator over a duplicate-free key list. -/
theorem sum_map_ite_eq {α : Type} [DecidableEq α] (a : α) (c : ℚ) :
    ∀ ks : List α, ks.Nodup →
      (ks.map (fun k => if a = k then c else 0)).sum = if a ∈ ks then c else 0 := by
  intro ks
  induction ks with
  | nil => intro _; simp
  | cons k ks ih =>
      intro hnd
      have hk : k ∉ ks := (List.nodup_cons.mp hnd).1
      have hnd' : ks.Nodup := (List.nodup_cons.mp hnd).2
      by_cases hak : a = k
      · subst hak
        simp [ih hnd', hk]
      · simp [hak, ih hnd']

/-- Helper: the `scores` accumulation step. -/
theorem scoreSum_cons (r : PersonaResponse) (fr : List PersonaResponse) (lab : String) :
    scoreSum (r :: fr) lab = (if r.label = lab then r.confidence else 0) + scoreSum fr lab := by
  by_cases h : r.label = lab <;> simp [scoreSum, List.filter_cons, h]

/-- Helper: the per-label sums over any duplicate-free key list covering the
round's labels add up to the total confidence of the round. -/
theorem sum_scoreSum_keys (fr : List PersonaResponse) (ks : List String)
    (hnd : ks.Nodup) (hcov : ∀ r ∈ fr, r.label ∈ ks) :
    (ks.map (scoreSum fr)).sum = (fr.map PersonaResponse.confidence).sum := by
  induction fr with
  | nil =>
      rw [List.map_congr_left (fun k _ => by simp [scoreSum] : ∀ k ∈ ks, scoreSum [] k = 0)]
      simp
  | cons r fr ih =>
      have hcov' : ∀ x ∈ fr, x.label ∈ ks := fun x hx => hcov x (List.mem_cons_of_mem _ hx)
      have hr : r.label ∈ ks := hcov r (List.mem_cons_self _ _)
      calc (ks.map (scoreSum (r :: fr))).sum
          = (ks.map (fun k =>
              (if r.label = k then r.confidence else 0) + scoreSum fr k)).sum := by
            rw [List.map_congr_left (fun k _ => scoreSum_cons r fr k)]
        _ = (ks.map (fun k => if r.label = k then r.confidence else 0)).sum
              + (ks.map (scoreSum fr)).sum := List.sum_map_add
        _ = r.confidence + (fr.map PersonaResponse.confidence).sum := by
            rw [sum_map_ite_eq _ _ ks hnd, if_pos hr, ih hcov']
        _ = ((r :: fr).map PersonaResponse.confidence).sum := by simp

/-- Helper: per-label sums are nonnegative when all confidences are. -/
theorem scoreSum_nonneg (fr : List PersonaResponse) (lab : String)
    (h : ∀ r ∈ fr, 0 ≤ r.confidence) : 0 ≤ scoreSum fr lab := by
  apply List.sum_nonneg
  intro x hx
  obtain ⟨r, hr, hrx⟩ := List.mem_map.mp hx
  exact hrx ▸ h r (List.mem_filter.mp hr).1

/-- Helper: a per-label sum is at most the round's total confidence. -/
theorem scoreSum_le_total (fr : List PersonaResponse) (lab : String)
    (h : ∀ r ∈ fr, 0 ≤ r.confidence) :
    scoreSum fr lab ≤ (fr.map PersonaResponse.confidence).sum := by
  apply List.Sublist.sum_le_sum
    (List.Sublist.map PersonaResponse.confidence (List.filter_sublist fr))
  intro x hx
  obtain ⟨r, hr, hrx⟩ := List.mem_map.mp hx
  exact hrx ▸ h r hr

/-- Helper: labels that never occur in the round have score zero. -/
theorem scoreSum_eq_zero (fr : List PersonaResponse) (lab : String)
    (h : lab ∉ fr.map PersonaResponse.label) : scoreSum fr lab = 0 := by
  have : fr.filter (fun r => r.label = lab) = [] := by
    apply List.filter_eq_nil_iff.mpr
    intro r hr
    simp only [decide_eq_true_eq]
    intro hcon
    exact h (hcon ▸ List.mem_map_of_mem PersonaResponse.label hr)
  simp [scoreSum, this]

/-- Helper: unfolding `weightedVoteJudge` on a non-empty final round. -/
theorem weightedVoteJudge_eq (t : DebateTranscript) (labels : List String)
    (fr : List PersonaResponse) (l : String) (ls : List String)
    (hfr : t.rounds.getLast? = some fr) (hne : fr.isEmpty = false)
    (hocc : firstOccur (fr.map PersonaResponse.label) = l :: ls) :
    weightedVoteJudge t labels =
      { label := firstMax (scoreSum fr) l ls
        confidence := scoreSum fr (firstMax (scoreSum fr) l ls)
          / (if ((l :: ls).map (scoreSum fr)).sum = 0 then 1
             else ((l :: ls).map (scoreSum fr)).sum)
        reasoning := "Weighted vote based on persona confidence scores."
        wasEscalated := true
        primaryResult := t.primaryResult
        debateTranscript := some t
        judgeStrategy := "weighted_vote"
        totalDurationMs := t.durationMs
        totalCostUsd := t.totalCostUsd } := by
  unfold weightedVoteJudge
  rw [hfr]
  dsimp only
  rw [hne, hocc]
  dsimp only
  simp only [Bool.false_eq_true, if_false]

/-- C5: for a non-empty final round whose confidences are in the valid
range, `WeightedVoteJudge.judge` returns a label whose summed confidence is
maximal among all labels, occurring in the final round, with verdict
confidence equal to the winner's sum divided by the sum of all confidences
in the final round. -/
theorem weighted_vote_spec (t : DebateTranscript) (labels : List String)
    (fr : List PersonaResponse)
    (hfr : t.rounds.getLast? = some fr) (hne : fr ≠ [])
    (hconf : ∀ r ∈ fr, 0 ≤ r.confidence) :
    (∀ lab : String, scoreSum fr lab ≤ scoreSum fr (weightedVoteJudge t labels).label) ∧
    (weightedVoteJudge t labels).label ∈ fr.map PersonaResponse.label ∧
    (weightedVoteJudge t labels).confidence
      = scoreSum fr (weightedVoteJudge t labels).label
        / (fr.map PersonaResponse.confidence).sum := by
  have hmapne : fr.map PersonaResponse.label ≠ [] := by simpa using hne
  cases hocc : firstOccur (fr.map PersonaResponse.label) with
  | nil => exact absurd hocc (firstOccur_ne_nil _ hmapne)
  | cons l ls =>
    have hje := weightedVoteJudge_eq t labels fr l ls hfr (by simpa using hne) hocc
    obtain ⟨hmax, _⟩ := firstMax_spec (scoreSum fr) ls l
    have hwmem : firstMax (scoreSum fr) l ls ∈ fr.map PersonaResponse.label :=
      firstMax_firstOccur_mem _ _ _ _ hocc
    have hcover : ∀ r ∈ fr, r.label ∈ l :: ls := fun r hr =>
      hocc ▸ (mem_firstOccur _ _).mpr (List.mem_map_of_mem PersonaResponse.label hr)
    have hkeys : ((l :: ls).map (scoreSum fr)).sum
        = (fr.map PersonaResponse.confidence).sum := by
      apply sum_scoreSum_keys fr (l :: ls) _ hcover
      rw [← hocc]
      exact nodup_firstOccur _
    rw [hje]
    dsimp only
    refine ⟨?_, hwmem, ?_⟩
    · intro lab
      by_cases hmem : lab ∈ fr.map PersonaResponse.label
      · exact hmax lab (hocc ▸ (mem_firstOccur _ _).mpr hmem)
      · rw [scoreSum_eq_zero fr lab hmem]
        exact scoreSum_nonneg fr _ hconf
    · rw [hkeys]
      by_cases h0 : (fr.map PersonaResponse.confidence).sum = 0
      · have hzero : scoreSum fr (firstMax (scoreSum fr) l ls) = 0 :=
          le_antisymm (h0 ▸ scoreSum_le_total fr _ hconf) (scoreSum_nonneg fr _ hconf)
        rw [h0, if_pos rfl, hzero]
        simp
      · rw [if_neg h0]

/-- Witness for C4: the 2-1 split round: applying the theorem at `mvRound`
yields the confidence formula `winner_count / round_size`. -/
theorem majority_vote_spec_witness :
    (mvTranscript.rounds.getLast? = some mvRound ∧ mvRound ≠ []) ∧
    (majorityVoteJudge mvTranscript ["safe", "unsafe"]).confidence
      = (countLabel mvRound (majorityVoteJudge mvTranscript ["safe", "unsafe"]).label : ℚ)
        / (mvRound.length : ℚ) := by
  refine ⟨⟨rfl, by simp [mvRound]⟩, ?_⟩
  exact (majority_vote_spec mvTranscript ["safe", "unsafe"] mvRound rfl
    (by simp [mvRound])).2.2.1

/-- Witness for C5: the spec scenario
`[("safe",0.99),("unsafe",0.6),("unsafe",0.2)]` yields label "safe" with
confidence `0.99/1.79 = 99/179`. -/
theorem weighted_vote_spec_witness :
    (wvTranscript.rounds.getLast? = some wvRound ∧ wvRound ≠ [] ∧
      (∀ r ∈ wvRound, 0 ≤ r.confidence)) ∧
    (weightedVoteJudge wvTranscript ["safe", "unsafe"]).label = "safe" ∧
    (weightedVoteJudge wvTranscript ["safe", "unsafe"]).confidence = 99/179 := by
  have hne : wvRound ≠ [] := by simp [wvRound]
  have hcf : ∀ r ∈ wvRound, 0 ≤ r.confidence := by
    intro r hr
    simp only [wvRound, List.mem_cons, List.not_mem_nil, or_false] at hr
    rcases hr with h | h | h <;> subst h <;> norm_num
  have h := weighted_vote_spec wvTranscript ["safe", "unsafe"] wvRound rfl hne hcf
  have hss : scoreSum wvRound "safe" = 99/100 := by
    simp [scoreSum, wvRound]
  have hsu : scoreSum wvRound "unsafe" = 8/10 := by
    simp [scoreSum, wvRound]
    norm_num
  have hlabel : (weightedVoteJudge wvTranscript ["safe", "unsafe"]).label = "safe" := by
    have hmem := h.2.1
    have hmax := h.1 "safe"
    simp only [wvRound, List.map_cons, List.map_nil, List.mem_cons,
      List.not_mem_nil, or_false] at hmem
    rcases hmem with hl | hl | hl
    · exact hl
    · rw [hl] at hmax ⊢
      rw [hss, hsu] at hmax
      norm_num at hmax
    · rw [hl] at hmax ⊢
      rw [hss, hsu] at hmax
      norm_num at hmax
  have hsum : (wvRound.map PersonaResponse.confidence).sum = 179/100 := by
    simp [wvRound]
    norm_num
  have hconf := h.2.2
  rw [hlabel, hss, hsum] at hconf
  refine ⟨⟨rfl, hne, hcf⟩, hlabel, ?_⟩
  rw [hconf]
  norm_num

/-- C10: the `labels` argument of `MajorityVoteJudge.judge` and
`WeightedVoteJudge.judge` never influences the verdict - the outputs are
identical for any two label sets - and the returned label can lie outside
the configured label set ("zzz" with labels `["safe"]`). -/
theorem vote_judges_ignore_labels :
    (∀ (t : DebateTranscript) (l1 l2 : List String),
      majorityVoteJudge t l1 = majorityVoteJudge t l2 ∧
      weightedVoteJudge t l1 = weightedVoteJudge t l2) ∧
    (majorityVoteJudge strayTranscript ["safe"]).label = "zzz" ∧
    (weightedVoteJudge strayTranscript ["safe"]).label = "zzz" ∧
    "zzz" ∉ ["safe"] := by
  refine ⟨fun t l1 l2 => ⟨rfl, rfl⟩, ?_, ?_, by simp⟩
  · simp [majorityVoteJudge, strayTranscript, strayRound, firstOccur, firstMax]
  · simp [weightedVoteJudge, strayTranscript, strayRound, firstOccur, firstMax]

/-- Helper: one inner `for label in labels` pass multiplies each label's
entry by its factor, once per occurrence in `labels`. -/
theorem bayesStep_eq (priors : String → String → Option ℚ) (nLabels : ℕ)
    (r : PersonaResponse) :
    ∀ (labels : List String) (post : String → ℚ),
      bayesStep priors nLabels labels r post
        = fun lab => post lab * bayesFactor priors nLabels r lab ^ labels.count lab := by
  intro labels
  induction labels with
  | nil => intro post; funext lab; simp [bayesStep]
  | cons l ls ih =>
      intro post
      have hstep : bayesStep priors nLabels (l :: ls) r post
          = bayesStep priors nLabels ls r
              (Function.update post l (post l * bayesFactor priors nLabels r l)) := by
        simp [bayesStep]
      rw [hstep, ih]
      funext lab
      by_cases hl : lab = l
      · subst hl
        rw [Function.update_same, List.count_cons_self]
        ring
      · rw [Function.update_noteq hl, List.count_cons_of_ne hl]

/-- Helper: the double loop equals the per-label product of factors. -/
theorem bayesPost_foldl_eq (priors : String → String → Option ℚ) (nLabels : ℕ)
    (labels : List String) :
    ∀ (fr : List PersonaResponse) (post : String → ℚ),
      fr.foldl (fun p r => bayesStep priors nLabels labels r p) post
        = fun lab => post lab
            * (fr.map (fun r => bayesFactor priors nLabels r lab ^ labels.count lab)).prod := by
  intro fr
  induction fr with
  | nil => intro post; funext lab; simp
  | cons r fr ih =>
      intro post
      simp only [List.foldl_cons]
      rw [ih, bayesStep_eq]
      funext lab
      simp only [List.map_cons, List.prod_cons]
      ring

/-- Helper: the posterior computed by the loops is the closed-form product. -/
theorem bayesPost_closed (priors : String → String → Option ℚ) (labels : List String)
    (fr : List PersonaResponse) :
    bayesPost priors labels.length labels fr
      = fun lab => bayesClosedPost priors labels fr lab := by
  unfold bayesPost bayesClosedPost
  rw [bayesPost_foldl_eq]
  funext lab
  simp

/-- Helper: every Bayesian factor is strictly positive (the `1e-6` clamp). -/
theorem bayesFactor_pos (priors : String → String → Option ℚ) (nLabels : ℕ)
    (r : PersonaResponse) (lab : String) : 0 < bayesFactor priors nLabels r lab :=
  lt_of_lt_of_le (by norm_num) (le_max_left _ _)

/-- Helper: the closed-form posterior is strictly positive. -/
theorem bayesClosedPost_pos (priors : String → String → Option ℚ) (labels : List String)
    (fr : List PersonaResponse) (lab : String) : 0 < bayesClosedPost priors labels fr lab := by
  apply List.prod_pos
  intro x hx
  obtain ⟨r, _, hrx⟩ := List.mem_map.mp hx
  exact hrx ▸ pow_pos (bayesFactor_pos priors labels.length r lab) _

/-- Helper: unfolding `bayesianJudge` on a non-empty final round and
non-empty label set. -/
theorem bayesianJudge_eq (priors : String → String → Option ℚ) (t : DebateTranscript)
    (labels : List String) (fr : List PersonaResponse) (k : String) (ks : List String)
    (hfr : t.rounds.getLast? = some fr) (hne : fr.isEmpty = false)
    (hocc : firstOccur labels = k :: ks) :
    bayesianJudge priors t labels =
      some
        { label := firstMax
            (fun lab => bayesPost priors labels.length labels fr lab
              / (if ((k :: ks).map (bayesPost priors labels.length labels fr)).sum = 0 then 1
                 else ((k :: ks).map (bayesPost priors labels.length labels fr)).sum)) k ks
          confidence :=
            (fun lab => bayesPost priors labels.length labels fr lab
              / (if ((k :: ks).map (bayesPost priors labels.length labels fr)).sum = 0 then 1
                 else ((k :: ks).map (bayesPost priors labels.length labels fr)).sum))
            (firstMax
              (fun lab => bayesPost priors labels.length labels fr lab
                / (if ((k :: ks).map (bayesPost priors labels.length labels fr)).sum = 0 then 1
                   else ((k :: ks).map (bayesPost priors labels.length labels fr)).sum)) k ks)
          reasoning := "Bayesian aggregation across persona responses."
          wasEscalated := true
          primaryResult := t.primaryResult
          debateTranscript := some t
          judgeStrategy := "bayesian"
          totalDurationMs := t.durationMs
          totalCostUsd := t.totalCostUsd } := by
  unfold bayesianJudge
  rw [hfr]
  dsimp only
  rw [hne, hocc]
  dsimp only
  simp only [Bool.false_eq_true, if_false]

/-- C6 (amended): for a non-empty final round and non-empty label set,
`BayesianJudge.judge` computes for each label the product over final-round
responses of `max(1e-6, prior * likelihood)` - the prior re-entering once
per response per occurrence of the label, with the clamp applied to each
factor rather than to the running posterior - normalizes these products to
sum to 1 over the distinct labels, and returns a label of maximal
normalized posterior as its confidence; all normalized posteriors are
strictly positive. -/
theorem bayesian_judge_spec (priors : String → String → Option ℚ) (t : DebateTranscript)
    (labels : List String) (fr : List PersonaResponse)
    (hfr : t.rounds.getLast? = some fr) (hne : fr ≠ []) (hlab : labels ≠ []) :
    ∃ v, bayesianJudge priors t labels = some v ∧
      v.label ∈ labels ∧
      (∀ lab ∈ labels,
        bayesNormPost priors labels fr lab ≤ bayesNormPost priors labels fr v.label) ∧
      v.confidence = bayesNormPost priors labels fr v.label ∧
      ((firstOccur labels).map (bayesNormPost priors labels fr)).sum = 1 ∧
      (∀ lab ∈ labels, 0 < bayesNormPost priors labels fr lab) := by
  cases hocc : firstOccur labels with
  | nil => exact absurd hocc (firstOccur_ne_nil _ hlab)
  | cons k ks =>
    have hje := bayesianJudge_eq priors t labels fr k ks hfr (by simpa using hne) hocc
    rw [bayesPost_closed] at hje
    set S : ℚ := ((k :: ks).map (fun lab => bayesClosedPost priors labels fr lab)).sum with hS
    have hSpos : 0 < S := by
      apply List.sum_pos
      · intro x hx
        obtain ⟨lab, _, hlx⟩ := List.mem_map.mp hx
        exact hlx ▸ bayesClosedPost_pos priors labels fr lab
      · simp
    have hSne : S ≠ 0 := ne_of_gt hSpos
    have hnorm : ∀ lab, bayesNormPost priors labels fr lab
        = bayesClosedPost priors labels fr lab / S := by
      intro lab
      unfold bayesNormPost
      rw [hocc]
    have hT : (if S = 0 then (1:ℚ) else S) = S := if_neg hSne
    rw [hT] at hje
    obtain ⟨hmax, _⟩ := firstMax_spec
      (fun lab => bayesClosedPost priors labels fr lab / S) ks k
    have hwmem : firstMax (fun lab => bayesClosedPost priors labels fr lab / S) k ks
        ∈ labels :=
      firstMax_firstOccur_mem
        (fun lab => bayesClosedPost priors labels fr lab / S) labels k ks hocc
    refine ⟨_, hje, ?_, ?_, ?_, ?_, ?_⟩
    · exact hwmem
    · intro lab hmem
      rw [hnorm, hnorm]
      exact hmax lab (hocc ▸ (mem_firstOccur labels lab).mpr hmem)
    · rw [hnorm]
    · rw [List.map_congr_left (fun lab _ => hnorm lab)]
      simp only [div_eq_mul_inv]
      rw [List.sum_map_mul_right]
      exact mul_inv_cancel₀ hSne
    · intro lab _
      rw [hnorm]
      exact div_pos (bayesClosedPost_pos priors labels fr lab) hSpos

/-- Witness for C6 (amended theorem): applied at the concrete unanimous
round `bcRound` with labels ["a","b"]. -/
theorem bayesian_judge_spec_witness :
    (bcTranscript.rounds.getLast? = some bcRound ∧ bcRound ≠ [] ∧
      (["a", "b"] : List String) ≠ []) ∧
    (∃ v, bayesianJudge (fun _ _ => none) bcTranscript ["a", "b"] = some v ∧
      v.label ∈ ["a", "b"] ∧
      (∀ lab ∈ (["a", "b"] : List String),
        bayesNormPost (fun _ _ => none) ["a", "b"] bcRound lab
          ≤ bayesNormPost (fun _ _ => none) ["a", "b"] bcRound v.label) ∧
      v.confidence = bayesNormPost (fun _ _ => none) ["a", "b"] bcRound v.label ∧
      ((firstOccur ["a", "b"]).map (bayesNormPost (fun _ _ => none) ["a", "b"] bcRound)).sum
        = 1 ∧
      (∀ lab ∈ (["a", "b"] : List String),
        0 < bayesNormPost (fun _ _ => none) ["a", "b"] bcRound lab)) := by
  refine ⟨⟨rfl, by simp [bcRound], by simp⟩, ?_⟩
  exact bayesian_judge_spec (fun _ _ => none) bcTranscript ["a", "b"] bcRound rfl
    (by simp [bcRound]) (by simp)

/-- Counterexample for C6: at two unanimous confidence-1 responses over
labels ["a","b"] with no prior table, the code's normalized winning
posterior is `10^12/(10^12+4)` (prior re-multiplied per response, clamp per
factor), while the claim's algorithm (posterior starts at the prior once,
running posterior clamped) yields `500000/500001`; the two differ. -/
theorem bayesian_claim_counterexample :
    ((bayesianJudge (fun _ _ => none) bcTranscript ["a", "b"]).map Verdict.confidence
      = some ((10^12 : ℚ) / (10^12 + 4))) ∧
    bayesianClaimConfidence ["a", "b"] bcRound = 500000/500001 ∧
    ((10^12 : ℚ) / (10^12 + 4)) ≠ 500000/500001 := by
  refine ⟨?_, ?_, by norm_num⟩
  · simp [bayesianJudge, bcTranscript, bcRound, bayesPost, bayesStep, bayesFactor, priorFor,
      likelihoodFor, firstOccur, firstMax, Function.update]
    norm_num
  · simp [bayesianClaimConfidence, bayesianClaimPost, bcRound, likelihoodFor, firstOccur,
      firstMax]
    norm_num

/-- Helper: `getD` looks into the left part of an append. -/
theorem getD_append_left {α : Type} (l l2 : List α) (n : ℕ) (d : α) (h : n < l.length) :
    (l ++ l2).getD n d = l.getD n d := by
  rw [List.getD_eq_getElem?_getD, List.getElem?_append_left h, ← List.getD_eq_getElem?_getD]

/-- Helper: `getD` at the position of a snoc element. -/
theorem getD_snoc {α : Type} (l : List α) (a : α) (d : α) :
    (l ++ [a]).getD l.length d = a := by
  rw [List.getD_append_right _ _ _ _ (le_refl _)]
  simp

/-- Helper: the stage-2 loop returns at most `fuel` more rounds, its cost is
the sum of the round costs, it extends the incoming rounds, and every
appended round except possibly the last is neither unanimous nor
cost-exceeded (the loop stops immediately after any round that is). -/
theorem delibLoop_sound (oracle : List (List PersonaResponse) → List PersonaResponse)
    (maxCost : Option ℚ) :
    ∀ (fuel : ℕ) (rounds : List (List PersonaResponse)) (cost : ℚ),
      cost = ((rounds.map roundCost)).sum →
      (delibLoop oracle maxCost fuel rounds cost).1.length ≤ rounds.length + fuel ∧
      (delibLoop oracle maxCost fuel rounds cost).2
        = (((delibLoop oracle maxCost fuel rounds cost).1.map roundCost)).sum ∧
      (∃ ext, (delibLoop oracle maxCost fuel rounds cost).1 = rounds ++ ext) ∧
      (∀ i, rounds.length ≤ i →
        i + 1 < (delibLoop oracle maxCost fuel rounds cost).1.length →
        consensusReached ((delibLoop oracle maxCost fuel rounds cost).1.getD i []) = false ∧
        costExceeded maxCost
          ((((delibLoop oracle maxCost fuel rounds cost).1.take (i+1)).map roundCost).sum)
          = false) := by
  intro fuel
  induction fuel with
  | zero =>
      intro rounds cost h
      refine ⟨by simp [delibLoop], by simpa [delibLoop] using h,
        ⟨[], by simp [delibLoop]⟩, ?_⟩
      intro i h1 h2
      simp only [delibLoop] at h2
      omega
  | succ fuel ih =>
      intro rounds cost h
      by_cases hex : costExceeded maxCost (cost + roundCost (oracle rounds)) = true
      · have hres : delibLoop oracle maxCost (fuel+1) rounds cost
            = (rounds ++ [oracle rounds], cost + roundCost (oracle rounds)) := by
          simp [delibLoop, hex]
        rw [hres]
        refine ⟨by simp, by simp [h], ⟨[oracle rounds], rfl⟩, ?_⟩
        intro i h1 h2
        simp only [List.length_append, List.length_singleton] at h2
        omega
      · by_cases hcons : consensusReached (oracle rounds) = true
        · have hres : delibLoop oracle maxCost (fuel+1) rounds cost
              = (rounds ++ [oracle rounds], cost + roundCost (oracle rounds)) := by
            simp [delibLoop, hex, hcons]
          rw [hres]
          refine ⟨by simp, by simp [h], ⟨[oracle rounds], rfl⟩, ?_⟩
          intro i h1 h2
          simp only [List.length_append, List.length_singleton] at h2
          omega
        · have hres : delibLoop oracle maxCost (fuel+1) rounds cost
              = delibLoop oracle maxCost fuel (rounds ++ [oracle rounds])
                  (cost + roundCost (oracle rounds)) := by
            simp [delibLoop, hex, hcons]
          have hsum2 : cost + roundCost (oracle rounds)
              = (((rounds ++ [oracle rounds]).map roundCost)).sum := by
            simp [h]
          obtain ⟨hlen, hcost, ⟨ext, hext⟩, hidx⟩ := ih (rounds ++ [oracle rounds]) _ hsum2
          rw [hres]
          rw [Bool.not_eq_true] at hex hcons
          refine ⟨?_, hcost, ⟨[oracle rounds] ++ ext, by rw [hext, List.append_assoc]⟩, ?_⟩
          · simp only [List.length_append, List.length_singleton] at hlen
            omega
          · intro i h1 h2
            by_cases hi : i = rounds.length
            · subst hi
              constructor
              · rw [hext, getD_append_left _ _ _ _ (by simp), getD_snoc]
                exact hcons
              · have hlen1 : rounds.length + 1 = (rounds ++ [oracle rounds]).length := by
                  simp
                rw [hext, hlen1, List.take_left]
                rw [← hsum2]
                exact hex
            · exact hidx i (by simp; omega) h2

/-- C7 (amended): a deliberation-mode debate produces at most `max 1 m`
rounds (so at most `max 1 m - 1` after the initial parallel round), and the
round iteration stops immediately after any stage-2 round that is unanimous
or pushes the accumulated cost over the configured ceiling: every stage-2
round except the last is neither. -/
theorem deliberation_round_bound (personas : List Persona)
    (oracle : List (List PersonaResponse) → List PersonaResponse)
    (m : ℤ) (maxCost : Option ℚ) (sCost : ℚ) :
    ((debateDeliberation personas oracle m maxCost sCost).1.length : ℤ) ≤ max 1 m ∧
    (∀ i : ℕ, 1 ≤ i →
      i + 1 < (debateDeliberation personas oracle m maxCost sCost).1.length →
      consensusReached ((debateDeliberation personas oracle m maxCost sCost).1.getD i [])
        = false ∧
      costExceeded maxCost
        ((((debateDeliberation personas oracle m maxCost sCost).1.take (i+1)).map
          roundCost).sum) = false) := by
  have hmax1 : (1:ℤ) ≤ max 1 m := le_max_left _ _
  unfold debateDeliberation
  by_cases hp : personas.isEmpty = true
  · rw [if_pos hp]
    refine ⟨by simpa using le_trans zero_le_one hmax1, ?_⟩
    intro i h1 h2
    simp at h2
  · rw [if_neg hp]
    dsimp only
    by_cases hc0 : costExceeded maxCost (roundCost (oracle [])) = true
    · rw [if_pos hc0]
      refine ⟨by simpa using hmax1, ?_⟩
      intro i h1 h2
      simp at h2
    · rw [if_neg hc0]
      have hsum0 : roundCost (oracle []) = (([oracle []]).map roundCost).sum := by simp
      obtain ⟨hlen, _, _, hidx⟩ :=
        delibLoop_sound oracle maxCost ((max 1 m - 1).toNat) [oracle []] _ hsum0
      have hsame : ∀ p : List (List PersonaResponse) × ℚ,
          (if costExceeded maxCost p.2 then p else (p.1, p.2 + sCost)).1 = p.1 := by
        intro p
        split <;> rfl
      rw [hsame]
      constructor
      · simp only [List.length_singleton] at hlen
        have h1m : ((max 1 m - 1).toNat : ℤ) = max 1 m - 1 := Int.toNat_of_nonneg (by omega)
        omega
      · intro i h1 h2
        exact hidx i (by simpa using h1) h2

/-- Witness for C7 (amended theorem): a never-unanimous panel with
`max_rounds = 3` and no cost ceiling runs 3 rounds; round 1 (a stage-2
round that is not last) is neither unanimous nor over budget. -/
theorem deliberation_round_bound_witness :
    ((1:ℕ) ≤ 1) ∧
    1 + 1 < (debateDeliberation onePersona splitOracle 3 none 0).1.length ∧
    (consensusReached ((debateDeliberation onePersona splitOracle 3 none 0).1.getD 1 [])
        = false ∧
      costExceeded none
        ((((debateDeliberation onePersona splitOracle 3 none 0).1.take (1+1)).map
          roundCost).sum) = false) := by
  have hlen3 : (debateDeliberation onePersona splitOracle 3 none 0).1.length = 3 := rfl
  have hlt : 1 + 1 < (debateDeliberation onePersona splitOracle 3 none 0).1.length := by
    omega
  exact ⟨le_refl 1, hlt,
    (deliberation_round_bound onePersona splitOracle 3 none 0).2 1 (le_refl 1) hlt⟩

/-- Counterexample for C7: with `max_rounds = 0` the code still runs the
initial round (`max(1, max_rounds)` clamp), so the transcript has 1 round,
not at most 0 as the claim's universal reading requires. -/
theorem deliberation_max_rounds_counterexample :
    (debateDeliberation onePersona constOracle 0 none 0).1.length = 1 ∧ ¬ ((1:ℤ) ≤ 0) := by
  exact ⟨rfl, by decide⟩

/-- C8 (amended): whenever the (fence-stripped) reviewer text fails to parse
as JSON or parses to a non-object, `_parse_persona_response` returns -
without raising - the fallback `PersonaResponse` with the first configured
label (or "unknown" when none), confidence 0, reasoning carrying a 200-char
truncation of the raw text, and empty key factors.  (On a successfully
parsed object, converting a malformed `confidence` or `key_factors` field
can still raise, so the no-raise guarantee is limited to this path.) -/
theorem parse_fallback_spec (loads : String → Option PyJson) (raw personaName : String)
    (labels : List String)
    (h : safeJsonParse loads (stripMarkdownFences raw) = none) :
    parsePersonaResponse loads raw personaName labels =
      some
        { personaName := personaName
          label := labels.headD "unknown"
          confidence := 0
          reasoning := "Failed to parse persona response as JSON: " ++ pyTruncate raw 200
          keyFactors := [] } := by
  unfold parsePersonaResponse
  rw [h]

/-- Witness for C8: the literal reviewer text "not-json" with a failing
`json.loads` yields the fallback with the first configured label and
confidence 0. -/
theorem parse_fallback_spec_witness :
    (safeJsonParse (fun _ => none) (stripMarkdownFences "not-json") = none) ∧
    parsePersonaResponse (fun _ => none) "not-json" "p" ["safe", "unsafe"]
      = some
        { personaName := "p"
          label := "safe"
          confidence := 0
          reasoning := "Failed to parse persona response as JSON: not-json"
          keyFactors := [] } := by
  refine ⟨rfl, ?_⟩
  rw [parse_fallback_spec (fun _ => none) "not-json" "p" ["safe", "unsafe"] rfl]
  rfl

/-- A concrete `json.loads` behaviour: the object `\x7b"confidence": null\x7d`
parses to a dict whose "confidence" is `None`. -/
def badLoads : String → Option PyJson := fun s =>
  if s = "\x7b\"confidence\": null\x7d" then some (.obj [("confidence", PyJson.null)])
  else none

/-- Counterexample for C8: on the raw text `\x7b"confidence": null\x7d` - a
valid JSON object - parsing raises (`float(None)` is a `TypeError`),
contradicting the claim that response parsing never raises for every raw
reviewer text. -/
theorem parse_raises_counterexample :
    parsePersonaResponse badLoads "\x7b\"confidence\": null\x7d" "p" ["safe"] = none := by
  rfl

/-- C1: for confidence and threshold in [0,1], the escalation gate
`Jury._should_escalate` returns true iff the primary confidence is strictly
below the threshold (equality does not escalate), unless an override predicate
is configured, in which case the override's boolean value is authoritative and
the threshold comparison is not consulted. -/
theorem escalation_gate_strict_threshold (cfg : JuryConfig) (r : ClassificationResult)
    (hc0 : 0 ≤ r.confidence) (hc1 : r.confidence ≤ 1)
    (ht0 : 0 ≤ cfg.threshold) (ht1 : cfg.threshold ≤ 1) :
    (cfg.escalationOverride = none →
      ((shouldEscalate cfg r = true) ↔ r.confidence < cfg.threshold)) ∧
    (cfg.escalationOverride = none → r.confidence = cfg.threshold →
      shouldEscalate cfg r = false) ∧
    (∀ f, cfg.escalationOverride = some f → shouldEscalate cfg r = f r) := by
  refine ⟨?_, ?_, ?_⟩
  · intro hov
    simp [shouldEscalate, hov]
  · intro hov heq
    simp [shouldEscalate, hov, heq]
  · intro f hov
    simp [shouldEscalate, hov]

/-- Witness for C1: confidence 0.7 equal to threshold 0.7, no override -
the gate does not escalate. -/
theorem escalation_gate_strict_threshold_witness :
    (0 ≤ (7/10 : ℚ) ∧ (7/10 : ℚ) ≤ 1) ∧
    shouldEscalate cfgNoPersonas { label := "safe", confidence := 7/10 } = false := by
  refine ⟨by norm_num, ?_⟩
  exact (escalation_gate_strict_threshold cfgNoPersonas
      { label := "safe", confidence := 7/10 }
      (by norm_num) (by norm_num) (by norm_num [cfgNoPersonas])
      (by norm_num [cfgNoPersonas])).2.1 rfl rfl

/-- C2: when escalation is not triggered or the persona panel is empty,
`Jury.classify` returns the fast-path verdict: label and confidence copied
from the primary result, `was_escalated = false`, no transcript,
`judge_strategy = "primary_classifier"`, total cost equal to the primary
result's own cost (or 0 when absent); the `fast_path` counter (and only it,
besides `total`) is incremented and the judge is not invoked. -/
theorem classify_fast_path (cfg : JuryConfig) (j : DebateTranscript → List String → Verdict)
    (p : ClassificationResult) (t : DebateTranscript) (d : ℤ) (st : JuryStats)
    (h : shouldEscalate cfg p = false ∨ cfg.personas = []) :
    (classify cfg j p t d st).verdict.label = p.label ∧
    (classify cfg j p t d st).verdict.confidence = p.confidence ∧
    (classify cfg j p t d st).verdict.wasEscalated = false ∧
    (classify cfg j p t d st).verdict.debateTranscript = none ∧
    (classify cfg j p t d st).verdict.judgeStrategy = "primary_classifier" ∧
    (classify cfg j p t d st).verdict.totalCostUsd = some (p.costUsd.getD 0) ∧
    (classify cfg j p t d st).stats.total = st.total + 1 ∧
    (classify cfg j p t d st).stats.fastPath = st.fastPath + 1 ∧
    (classify cfg j p t d st).stats.escalated = st.escalated ∧
    (classify cfg j p t d st).judgeInvoked = false := by
  have hesc : (shouldEscalate cfg p && !cfg.personas.isEmpty) = false := by
    rcases h with h | h
    · simp [h]
    · simp [h]
  unfold classify
  simp [hesc]

/-- Witness for C2: primary result ("safe", 0.95), threshold 0.7 and no
personas yield the fast-path verdict with label "safe". -/
theorem classify_fast_path_witness :
    cfgNoPersonas.personas = [] ∧
    (classify cfgNoPersonas constJudge primarySafe transcriptEmpty 0 statsZero).verdict.label
      = "safe" := by
  refine ⟨rfl, ?_⟩
  exact (classify_fast_path cfgNoPersonas constJudge primarySafe transcriptEmpty 0 statsZero
    (Or.inr rfl)).1

/-- C3: on an escalated classification whose transcript cost strictly exceeds
the configured maximum debate cost, `Jury.classify` short-circuits to a
verdict built from the primary result, tagged
`judge_strategy = "cost_guard_primary_fallback"`, with `was_escalated = true`
and total cost equal to the transcript's cost; the judge strategy is never
invoked on that transcript. -/
theorem classify_cost_guard (cfg : JuryConfig) (j : DebateTranscript → List String → Verdict)
    (p : ClassificationResult) (t : DebateTranscript) (d : ℤ) (st : JuryStats) (m c : ℚ)
    (hesc : shouldEscalate cfg p = true) (hp : cfg.personas ≠ [])
    (hm : cfg.maxDebateCostUsd = some m) (hc : t.totalCostUsd = some c) (hgt : m < c) :
    (classify cfg j p t d st).verdict.label = p.label ∧
    (classify cfg j p t d st).verdict.confidence = p.confidence ∧
    (classify cfg j p t d st).verdict.wasEscalated = true ∧
    (classify cfg j p t d st).verdict.judgeStrategy = "cost_guard_primary_fallback" ∧
    (classify cfg j p t d st).verdict.totalCostUsd = some c ∧
    (classify cfg j p t d st).verdict.debateTranscript = some t ∧
    (classify cfg j p t d st).judgeInvoked = false := by
  have hne : cfg.personas.isEmpty = false := by
    cases hpp : cfg.personas with
    | nil => exact absurd hpp hp
    | cons a l => simp
  unfold classify
  simp [hesc, hne, hm, hc, hgt, le_of_lt]

/-- Witness for C3: threshold 0.9, confidence 0.4, one persona, maximum
debate cost 0.01, transcript cost 0.05 - the cost-guard verdict is returned. -/
theorem classify_cost_guard_witness :
    shouldEscalate cfgGuard primaryLow = true ∧
    (classify cfgGuard constJudge primaryLow transcriptCostly 0 statsZero).verdict.judgeStrategy
      = "cost_guard_primary_fallback" := by
  refine ⟨by simp [shouldEscalate, cfgGuard, primaryLow]; norm_num, ?_⟩
  exact (classify_cost_guard cfgGuard constJudge primaryLow transcriptCostly 0 statsZero
    (1/100) (5/100)
    (by simp [shouldEscalate, cfgGuard, primaryLow]; norm_num)
    (by simp [cfgGuard]) rfl rfl (by norm_num)).2.2.2.1

/-- C9: starting from counters satisfying `fast_path + escalated = total`,
the invariant holds after every prefix of any sequence of completed
`classify` calls, and each call increments `total` exactly once and exactly
one of `fast_path` / `escalated`.  (Between the `total` increment and the
branch increment inside one call the code has no await, so no other task can
observe the intermediate state under the cooperative single-threaded model.) -/
theorem stats_invariant (cfg : JuryConfig) (j : DebateTranscript → List String → Verdict)
    (calls : List ClassifyCall) (s : JuryStats)
    (hinv : s.fastPath + s.escalated = s.total) :
    (∀ n : ℕ,
      (classifyFold cfg j (calls.take n) s).fastPath
        + (classifyFold cfg j (calls.take n) s).escalated
        = (classifyFold cfg j (calls.take n) s).total) ∧
    (∀ (c : ClassifyCall) (st : JuryStats),
      (classify cfg j c.primary c.transcript c.dur st).stats.total = st.total + 1 ∧
      (classify cfg j c.primary c.transcript c.dur st).stats.fastPath
        + (classify cfg j c.primary c.transcript c.dur st).stats.escalated
        = st.fastPath + st.escalated + 1) := by
  refine ⟨fun n => classifyFold_inv cfg j (calls.take n) s hinv, fun c st => ?_⟩
  exact classify_stats_step cfg j c.primary c.transcript c.dur st

/-- Witness for C9: one fast-path call starting from zeroed counters keeps
the invariant. -/
theorem stats_invariant_witness :
    ((0 : ℕ) + 0 = 0) ∧
    ((classifyFold cfgNoPersonas constJudge
        (List.take 1 [{ primary := primarySafe, transcript := transcriptEmpty, dur := 0 }])
        statsZero).fastPath
      + (classifyFold cfgNoPersonas constJudge
        (List.take 1 [{ primary := primarySafe, transcript := transcriptEmpty, dur := 0 }])
        statsZero).escalated
      = (classifyFold cfgNoPersonas constJudge
        (List.take 1 [{ primary := primarySafe, transcript := transcriptEmpty, dur := 0 }])
        statsZero).total) := by
  refine ⟨rfl, ?_⟩
  have h := stats_invariant cfgNoPersonas constJudge
    [{ primary := primarySafe, transcript := transcriptEmpty, dur := 0 }]
    statsZero rfl
  exact h.1 1

end LlmJury
